import Mathlib

/-!
# Verification of the pf-web3-cosmos blockchain core

Shallow embedding of the blockchain core of the repository
(`src/blockchain/block.js`: the `Block`, `Transaction` and `Blockchain`
classes, and the peer message handler `P2PNode.handleNewTransaction` from
the network module).

The external cryptographic capability is abstracted: the SHA-256 block
hash (`calculateHash` in `utils/crypto.js`) is a parameter
`H : HashInput → String` applied to exactly the six header fields the
source hashes, and the merkle tree of `merkletreejs` over the transaction
ids is a parameter `MR : List String → String` applied to the list of
transaction ids (the source builds the leaves as `SHA256(tx.id)`, so the
root is a function of the id list alone).  Every theorem below is proved
for arbitrary `H`/`MR`, or evaluated at concrete instances.

JavaScript conventions carried over: `Date.now()` timestamps and the
`uuidv4()` ids are nondeterministic inputs, passed as explicit arguments;
a JS falsy check `!x` on an address field holds for `null`/`undefined`
and for the empty string, modelled by `jsFalsy`; a thrown `Error` is an
`Except.error`.
-/

/-- The six fields hashed by `Block.calculateHash` in the source. -/
structure HashInput where
  index : Nat
  previousHash : String
  timestamp : Nat
  merkleRoot : String
  nonce : Nat
  difficulty : Nat
deriving DecidableEq

/-- `Transaction` of `src/blockchain/transaction.js`: `fromAddress` is
`null` for reward transactions, `signature` is `null` until signed. -/
structure Transaction where
  id : String
  fromAddress : Option String
  toAddress : String
  amount : Int
  timestamp : Nat
  type : String
  signature : Option String
deriving DecidableEq

/-- The `Transaction` constructor: fresh uuid and `Date.now()` are passed
in; `signature` starts out `null`. -/
def mkTransaction (id : String) (fromAddress : Option String) (toAddress : String)
    (amount : Int) (timestamp : Nat) (type : String) : Transaction :=
  { id := id, fromAddress := fromAddress, toAddress := toAddress, amount := amount,
    timestamp := timestamp, type := type, signature := none }

/-- The plain-object shape produced by `Transaction.toJSON`. -/
structure TxJSON where
  id : String
  fromAddress : Option String
  toAddress : String
  amount : Int
  timestamp : Nat
  type : String
  signature : Option String
deriving DecidableEq

def Transaction.toJSON (t : Transaction) : TxJSON :=
  { id := t.id, fromAddress := t.fromAddress, toAddress := t.toAddress,
    amount := t.amount, timestamp := t.timestamp, type := t.type,
    signature := t.signature }

/-- `Transaction.fromJSON`: runs the constructor (with a fresh uuid and
`Date.now()`), then overwrites `id`, `timestamp` and `signature` from the
data, exactly as the source does. -/
def Transaction.fromJSON (freshId : String) (now : Nat) (d : TxJSON) : Transaction :=
  let t := mkTransaction freshId d.fromAddress d.toAddress d.amount now d.type
  { t with id := d.id, timestamp := d.timestamp, signature := d.signature }

/-- `'0'.repeat(n)`. -/
def zerosStr (n : Nat) : String := String.mk (List.replicate n '0')

/-- JS `s.startsWith(pre)`: the first `pre.length` code units of `s`
equal `pre` (hash strings here are ASCII hex, so code units and
characters coincide). -/
def jsStartsWith (s pre : String) : Bool := s.take pre.length == pre

/-- `'0' + '1'.repeat(63)`: the constant the source assigns as the genesis
hash and as the fabricated hash when mining exhausts its attempt cap. -/
def zeroOneHash : String := String.mk ('0' :: List.replicate 63 '1')

/-- `Block.calculateMerkleRoot`: all-zero digest for an empty transaction
list, otherwise the merkle root over the transaction ids (the source
builds leaves as `SHA256(tx.id)`, so the root depends only on the ids). -/
def calculateMerkleRoot (MR : List String → String) (txs : List Transaction) : String :=
  if txs.length = 0 then zerosStr 64 else MR (txs.map (fun t => t.id))

/-- `Block` of `src/blockchain/block.js`. -/
structure Block where
  index : Nat
  timestamp : Nat
  previousHash : String
  transactions : List Transaction
  difficulty : Nat
  nonce : Nat
  merkleRoot : String
  hash : String
deriving DecidableEq

/-- The argument `Block.calculateHash` passes to the crypto capability,
with the nonce made explicit (it is the only field the mining loop
varies). -/
def headerOf (b : Block) (nonce : Nat) : HashInput :=
  { index := b.index, previousHash := b.previousHash, timestamp := b.timestamp,
    merkleRoot := b.merkleRoot, nonce := nonce, difficulty := b.difficulty }

/-- `Block.calculateHash`: hash of the six header fields; note it reads
the STORED `merkleRoot` field, never recomputing it from `transactions`. -/
def calculateHashOfBlock (H : HashInput → String) (b : Block) : String :=
  H (headerOf b b.nonce)

/-- The `Block` constructor: merkle root first, then the hash over the
header (nonce 0); a block constructed with `index === 0` gets the fixed
hash `'0' + '1'.repeat(63)` regardless of every other argument. -/
def mkBlock (H : HashInput → String) (MR : List String → String)
    (index : Nat) (previousHash : String) (transactions : List Transaction)
    (difficulty : Nat) (timestamp : Nat) : Block :=
  let merkleRoot := calculateMerkleRoot MR transactions
  let hash0 := H { index := index, previousHash := previousHash, timestamp := timestamp,
                   merkleRoot := merkleRoot, nonce := 0, difficulty := difficulty }
  { index := index, timestamp := timestamp, previousHash := previousHash,
    transactions := transactions, difficulty := difficulty, nonce := 0,
    merkleRoot := merkleRoot,
    hash := if index = 0 then zeroOneHash else hash0 }

/-- The `while` loop of `Block.mineBlock`: runs while
`hash.substring(0, difficulty) !== target && maxAttempts > 0`, each pass
incrementing the nonce, rehashing, and decrementing `maxAttempts`.
Returns the final `(nonce, hash, maxAttempts)`. -/
def mineLoop (hashAt : Nat → String) (difficulty : Nat) (target : String) :
    Nat → Nat → String → Nat × String × Nat
  | 0, nonce, hash => (nonce, hash, 0)
  | fuel + 1, nonce, hash =>
    if hash.take difficulty = target then (nonce, hash, fuel + 1)
    else mineLoop hashAt difficulty target fuel (nonce + 1) (hashAt (nonce + 1))

/-- The code after the `while` loop of `Block.mineBlock`: adopt the
final nonce and hash; on exhaustion (`maxAttempts <= 0`) the hash is
forced to `'0' + '1'.repeat(63)` instead. -/
def mineFinish (b : Block) (r : Nat × String × Nat) : Block :=
  if r.2.2 = 0 then { b with nonce := r.1, hash := zeroOneHash }
  else { b with nonce := r.1, hash := r.2.1 }

/-- `Block.mineBlock`: genesis returns untouched; otherwise run the
capped search (`maxAttempts = 10000`) over the block's own nonce and
hash, then adopt the outcome. -/
def mineBlock (H : HashInput → String) (b : Block) : Block :=
  if b.index = 0 then b
  else
    mineFinish b
      (mineLoop (fun n => H (headerOf b n)) b.difficulty (zerosStr b.difficulty)
        10000 b.nonce b.hash)

/-- The plain-object shape produced by `Block.toJSON`. -/
structure BlockJSON where
  index : Nat
  timestamp : Nat
  previousHash : String
  hash : String
  nonce : Nat
  difficulty : Nat
  merkleRoot : String
  transactions : List TxJSON
deriving DecidableEq

def Block.toJSON (b : Block) : BlockJSON :=
  { index := b.index, timestamp := b.timestamp, previousHash := b.previousHash,
    hash := b.hash, nonce := b.nonce, difficulty := b.difficulty,
    merkleRoot := b.merkleRoot, transactions := b.transactions.map Transaction.toJSON }

/-- `Block.fromJSON`: runs the constructor on the data's index,
previousHash, transactions and difficulty (the constructor stamps
`Date.now()`, here `nowB`), then overwrites `timestamp`, `nonce`, `hash`
and `merkleRoot` from the data. -/
def Block.fromJSON (H : HashInput → String) (MR : List String → String)
    (nowB : Nat) (txFresh : String) (txNow : Nat) (d : BlockJSON) : Block :=
  let b := mkBlock H MR d.index d.previousHash
    (d.transactions.map (Transaction.fromJSON txFresh txNow)) d.difficulty nowB
  { b with
    timestamp := d.timestamp
    nonce := d.nonce
    hash := d.hash
    merkleRoot := d.merkleRoot }

/-- `Blockchain` of `src/blockchain/blockchain.js`. -/
structure Blockchain where
  chain : List Block
  difficulty : Nat
  pendingTransactions : List Transaction
  miningReward : Int
deriving DecidableEq

/-- `Blockchain.createGenesisBlock`: `new Block(0, '0'.repeat(64), [], 1)`. -/
def createGenesisBlock (H : HashInput → String) (MR : List String → String)
    (ts : Nat) : Block :=
  mkBlock H MR 0 (zerosStr 64) [] 1 ts

/-- The `Blockchain` constructor (defaults in the source:
`difficulty = 2`, `miningReward = 50`). -/
def mkBlockchain (H : HashInput → String) (MR : List String → String)
    (ts : Nat) (difficulty : Nat) (miningReward : Int) : Blockchain :=
  { chain := [createGenesisBlock H MR ts], difficulty := difficulty,
    pendingTransactions := [], miningReward := miningReward }

/-- JS truthiness test `!x` on an address slot: `null`/`undefined` and
the empty string are falsy. -/
def jsFalsy : Option String → Bool
  | none => true
  | some s => s == ""

/-- The string value of an address slot when passed on (a present,
truthy address passes through unchanged). -/
def addrVal (o : Option String) : String := o.getD ""

/-- `Blockchain.getBalanceOfAddress`: replay every block's transactions,
crediting the recipient and debiting the sender. -/
def getBalanceOfAddress (s : Blockchain) (address : String) : Int :=
  s.chain.foldl
    (fun bal block =>
      block.transactions.foldl
        (fun b t =>
          let b1 := if t.toAddress == address then b + t.amount else b
          if t.fromAddress == some address then b1 - t.amount else b1)
        bal)
    0

/-- `this.getLatestBlock().index + 1`, the value `addTransaction`
returns.  The chain always starts from genesis, so the `none` branch is
unreachable. -/
def latestIndexPlusOne (s : Blockchain) : Nat :=
  match s.chain.getLast? with
  | some b => b.index + 1
  | none => 0

/-- `Blockchain.addTransaction`: the four sequential validity checks of
the source (each a thrown `Error`), then push onto the pending pool. -/
def addTransaction (s : Blockchain) (tx : Transaction) :
    Except String (Blockchain × Nat) :=
  if jsFalsy tx.fromAddress = true ∧ tx.type ≠ "reward" then
    Except.error "sender required unless reward"
  else if tx.toAddress = "" then
    Except.error "recipient required"
  else if tx.amount ≤ 0 then
    Except.error "amount must be positive"
  else if jsFalsy tx.fromAddress = false ∧ tx.type ≠ "reward" ∧
      getBalanceOfAddress s (addrVal tx.fromAddress) < tx.amount then
    Except.error "insufficient balance"
  else
    Except.ok ({ s with pendingTransactions := s.pendingTransactions ++ [tx] },
      latestIndexPlusOne s)

/-- `Blockchain.minePendingTransactions`: push the reward transaction
onto the pool, build the candidate block on the tip, mine it, append it,
clear the pool.  `rid`/`rts` are the reward transaction's fresh uuid and
timestamp, `ts` the block's; `none` only on an (unreachable) empty
chain, where the source would throw. -/
def minePendingTransactions (H : HashInput → String) (MR : List String → String)
    (s : Blockchain) (miningRewardAddress : String) (rid : String) (rts ts : Nat) :
    Option (Blockchain × Block) :=
  match s.chain.getLast? with
  | none => none
  | some tip =>
    let rewardTx := mkTransaction rid none miningRewardAddress s.miningReward rts "reward"
    let pending := s.pendingTransactions ++ [rewardTx]
    let block0 := mkBlock H MR (tip.index + 1) tip.hash pending s.difficulty ts
    let block := mineBlock H block0
    some ({ s with chain := s.chain ++ [block], pendingTransactions := [] }, block)

/-- The loop body of `Blockchain.isChainValid` checked for one adjacent
pair: recomputed hash, linkage, and difficulty on the current block. -/
def isChainValidStep (H : HashInput → String) (previousBlock currentBlock : Block) : Bool :=
  (currentBlock.hash == calculateHashOfBlock H currentBlock) &&
  (currentBlock.previousHash == previousBlock.hash) &&
  (currentBlock.hash.take currentBlock.difficulty == zerosStr currentBlock.difficulty)

def isChainValidAux (H : HashInput → String) : Block → List Block → Bool
  | _, [] => true
  | prev, cur :: rest => isChainValidStep H prev cur && isChainValidAux H cur rest

/-- `Blockchain.isChainValid`, as a function of the chain it reads: start
from index 1, check each block against its predecessor. -/
def isChainValid (H : HashInput → String) : List Block → Bool
  | [] => true
  | g :: rest => isChainValidAux H g rest

/-- The per-block check of `Blockchain.isValidChain` (note: unlike
`isChainValid`, it never recomputes the hash). -/
def isValidChainStep (previousBlock block : Block) : Bool :=
  jsStartsWith block.hash (zerosStr block.difficulty) &&
  (block.previousHash == previousBlock.hash)

def isValidChainAux : Block → List Block → Bool
  | _, [] => true
  | prev, b :: rest => isValidChainStep prev b && isValidChainAux b rest

/-- `Blockchain.isValidChain`: relaxed genesis check (index 0, hash
starts with one `'0'`), then prefix and linkage per block.  On `[]` the
source would throw reading `chain[0].index`; that call is unreachable
from `replaceChain` (the current chain is nonempty, so an accepted
candidate has length at least 2). -/
def isValidChain : List Block → Bool
  | [] => false
  | g :: rest => (g.index == 0 && jsStartsWith g.hash "0") && isValidChainAux g rest

/-- `Blockchain.replaceChain`: reject unless strictly longer and valid;
on acceptance only `chain` is swapped. -/
def replaceChain (s : Blockchain) (newChain : List Block) : Bool × Blockchain :=
  if newChain.length ≤ s.chain.length then (false, s)
  else if isValidChain newChain = false then (false, s)
  else (true, { s with chain := newChain })

/-- `P2PNode.handleNewTransaction`: rebuild the transaction from the
wire data, drop it if its id is already pending, otherwise push it onto
the pool and re-broadcast.  The returned flag records whether
`broadcastTransaction` was called. -/
def handleNewTransaction (s : Blockchain) (d : TxJSON) (freshId : String) (now : Nat) :
    Blockchain × Bool :=
  let tx := Transaction.fromJSON freshId now d
  if s.pendingTransactions.any (fun t => t.id == tx.id) then (s, false)
  else ({ s with pendingTransactions := s.pendingTransactions ++ [tx] }, true)

/-- Adjacency linkage `chain[i].previousHash == chain[i-1].hash`. -/
def chainLinked : List Block → Bool
  | [] => true
  | [_] => true
  | a :: b :: rest => (b.previousHash == a.hash) && chainLinked (b :: rest)

/-- A concrete hash capability whose output always satisfies the
difficulty target, making the mining search succeed on its first check. -/
def H0 : HashInput → String := fun _ => zerosStr 64

/-- A concrete merkle capability for evaluation. -/
def MR0 : List String → String := fun _ => zerosStr 64

/-- A concrete hash capability whose output never has a leading zero, so
the mining search exhausts its attempt cap. -/
def Hf : HashInput → String := fun _ => String.mk (List.replicate 64 'f')

/-! ## Concrete sample data

A small concrete ledger over the `H0`/`MR0` capabilities, used by the
evaluated theorems: a genesis block, a block confirming a reward of 50
to `A`, and a block confirming a transfer of 30 from `A` to `B`. -/

/-- Genesis block of the sample ledger. -/
def gB : Block := createGenesisBlock H0 MR0 0

/-- A reward transaction of 50 to `A`. -/
def txR : Transaction := mkTransaction "r1" none "A" 50 1 "reward"

/-- Block 1: confirms the reward to `A`. -/
def b1 : Block := mkBlock H0 MR0 1 gB.hash [txR] 2 1

/-- An (unsigned) transfer of 30 from `A` to `B`. -/
def txT : Transaction := mkTransaction "t1" (some "A") "B" 30 2 "regular"

/-- Block 2: confirms the transfer from `A` to `B`. -/
def b2 : Block := mkBlock H0 MR0 2 b1.hash [txT] 2 2

/-- A freshly constructed blockchain (genesis only). -/
def freshChain : Blockchain := mkBlockchain H0 MR0 0 2 50

/-- The sample ledger after the reward block. -/
def chainA : Blockchain :=
  { chain := [gB, b1], difficulty := 2, pendingTransactions := [], miningReward := 50 }

/-- The sample ledger after the reward block and the transfer block. -/
def chainAB : Blockchain :=
  { chain := [gB, b1, b2], difficulty := 2, pendingTransactions := [], miningReward := 50 }

/-- Block 1 with its reward transaction's `amount` mutated from 50 to 100
and nothing recomputed. -/
def b1Tampered : Block := { b1 with transactions := [{ txR with amount := 100 }] }

/-- A wire transaction that every admission check rejects: empty
recipient, negative amount, absent sender on a transfer kind. -/
def txBadJ : TxJSON :=
  { id := "bad1", fromAddress := none, toAddress := "", amount := -5,
    timestamp := 0, type := "regular", signature := none }

/-- The rebuilt `Transaction` for `txBadJ`. -/
def txBad : Transaction := Transaction.fromJSON "f" 0 txBadJ

/-- The rejection condition of `SubmitTransaction` as the spec phrases
it: recipient absent, non-positive amount, or — for a non-reward kind —
sender absent or insufficient replayed balance. -/
def submitRejected (s : Blockchain) (tx : Transaction) : Prop :=
  tx.toAddress = "" ∨ tx.amount ≤ 0 ∨
    (tx.type ≠ "reward" ∧ (jsFalsy tx.fromAddress = true ∨
      getBalanceOfAddress s (addrVal tx.fromAddress) < tx.amount))

instance (s : Blockchain) (tx : Transaction) : Decidable (submitRejected s tx) := by
  unfold submitRejected
  infer_instance

instance {ε α : Type} [DecidableEq ε] [DecidableEq α] : DecidableEq (Except ε α) :=
  fun a b =>
    match a, b with
    | Except.ok x, Except.ok y =>
      if h : x = y then Decidable.isTrue (by rw [h])
      else Decidable.isFalse (by intro hc; cases hc; exact h rfl)
    | Except.error x, Except.error y =>
      if h : x = y then Decidable.isTrue (by rw [h])
      else Decidable.isFalse (by intro hc; cases hc; exact h rfl)
    | Except.ok _, Except.error _ => Decidable.isFalse (by intro hc; cases hc)
    | Except.error _, Except.ok _ => Decidable.isFalse (by intro hc; cases hc)

/-- Net effect of one transaction on one address's balance. -/
def txDelta (address : String) (t : Transaction) : Int :=
  (if t.toAddress == address then t.amount else 0) -
  (if t.fromAddress == some address then t.amount else 0)

/-! ## Helper lemmas -/

/-- `mineBlock` only ever touches `nonce` and `hash`. -/
theorem mineBlock_preserves (H : HashInput → String) (b : Block) :
    (mineBlock H b).index = b.index ∧
    (mineBlock H b).previousHash = b.previousHash ∧
    (mineBlock H b).transactions = b.transactions ∧
    (mineBlock H b).difficulty = b.difficulty ∧
    (mineBlock H b).timestamp = b.timestamp ∧
    (mineBlock H b).merkleRoot = b.merkleRoot := by
  unfold mineBlock mineFinish
  split
  · exact ⟨rfl, rfl, rfl, rfl, rfl, rfl⟩
  · split
    · exact ⟨rfl, rfl, rfl, rfl, rfl, rfl⟩
    · exact ⟨rfl, rfl, rfl, rfl, rfl, rfl⟩

/-- If no reachable hash meets the target, the search spends all its
fuel. -/
theorem mineLoop_exhausts (hashAt : Nat → String) (d : Nat) (target : String)
    (hAll : ∀ n, (hashAt n).take d ≠ target) :
    ∀ fuel nonce hash, hash.take d ≠ target →
      (mineLoop hashAt d target fuel nonce hash).2.2 = 0 := by
  intro fuel
  induction fuel with
  | zero => intro nonce hash _; rfl
  | succ f ih =>
    intro nonce hash hh
    unfold mineLoop
    rw [if_neg hh]
    exact ih (nonce + 1) (hashAt (nonce + 1)) (hAll (nonce + 1))

/-- On exhaustion, `mineBlock` assigns the fabricated constant hash. -/
theorem mineBlock_exhaust (H : HashInput → String) (b : Block)
    (hidx : ¬ b.index = 0)
    (hAll : ∀ n, (H (headerOf b n)).take b.difficulty ≠ zerosStr b.difficulty)
    (h0 : b.hash.take b.difficulty ≠ zerosStr b.difficulty) :
    (mineBlock H b).hash = zeroOneHash := by
  unfold mineBlock
  rw [if_neg hidx]
  have hr :
      (mineLoop (fun n => H (headerOf b n)) b.difficulty (zerosStr b.difficulty)
        10000 b.nonce b.hash).2.2 = 0 :=
    mineLoop_exhausts _ _ _ hAll 10000 b.nonce b.hash h0
  unfold mineFinish
  rw [if_pos hr]

/-- `chainLinked` survives appending a block linked to the tip. -/
theorem chainLinked_append (l : List Block) (tip b : Block)
    (h : l.getLast? = some tip) (hl : chainLinked l = true)
    (hb : b.previousHash = tip.hash) : chainLinked (l ++ [b]) = true := by
  induction l with
  | nil => simp at h
  | cons a l ih =>
    cases l with
    | nil =>
      have ha : a = tip := by
        simpa using h
      subst ha
      simp [chainLinked, hb]
    | cons c l2 =>
      have hparts := Bool.and_eq_true _ _ |>.mp (by simpa only [chainLinked] using hl)
      have h2 : (c :: l2).getLast? = some tip := by
        rw [List.getLast?_cons_cons] at h
        exact h
      have htail := ih h2 hparts.2
      rw [List.cons_append] at htail ⊢
      rw [List.cons_append]
      simp only [chainLinked]
      rw [hparts.1, htail]
      rfl

/-- The tail of a linked chain is linked. -/
theorem chainLinked_tail (a : Block) (l : List Block)
    (h : chainLinked (a :: l) = true) : chainLinked l = true := by
  cases l with
  | nil => rfl
  | cons c l2 =>
    unfold chainLinked at h
    exact (Bool.and_eq_true _ _ |>.mp h).2

/-- Adjacency reading of `chainLinked` via positional lookup. -/
theorem chainLinked_get? (l : List Block) (hl : chainLinked l = true) :
    ∀ i b1 b2, l.get? i = some b1 → l.get? (i + 1) = some b2 →
      b2.previousHash = b1.hash := by
  induction l with
  | nil => intro i b1 b2 h1 _; simp at h1
  | cons a l ih =>
    intro i b1 b2 h1 h2
    cases i with
    | zero =>
      simp only [List.get?_cons_zero, Option.some.injEq] at h1
      subst h1
      cases l with
      | nil => simp at h2
      | cons c l2 =>
        simp only [List.get?_cons_succ, List.get?_cons_zero, Option.some.injEq] at h2
        subst h2
        unfold chainLinked at hl
        have := (Bool.and_eq_true _ _ |>.mp hl).1
        exact beq_iff_eq.mp this
    | succ j =>
      simp only [List.get?_cons_succ] at h1 h2
      exact ih (chainLinked_tail a l hl) j b1 b2 h1 h2

/-- Per-transaction round trip (field copying undoes field copying). -/
theorem transaction_fromJSON_toJSON (freshId : String) (now : Nat) (t : Transaction) :
    Transaction.fromJSON freshId now (Transaction.toJSON t) = t := by
  cases t
  rfl

/-- Round trip over a transaction list. -/
theorem transactions_fromJSON_toJSON (freshId : String) (now : Nat)
    (l : List Transaction) :
    (l.map Transaction.toJSON).map (Transaction.fromJSON freshId now) = l := by
  induction l with
  | nil => rfl
  | cons hd tl ih =>
    simp only [List.map_cons, transaction_fromJSON_toJSON, ih]

/-! ## Claim theorems -/

/-- C9: every newly created blockchain's genesis block has index 0,
previousHash of 64 hex zeros, no transactions, difficulty 1, and a hash
starting with `'0'`; moreover the `Block` constructor with index 0
always assigns the fixed hash `'0' + '1'.repeat(63)`, regardless of
timestamp, transactions, previousHash, or difficulty. -/
theorem genesis_block_spec :
    (∀ (H : HashInput → String) (MR : List String → String) (ts : Nat),
      (createGenesisBlock H MR ts).index = 0 ∧
      (createGenesisBlock H MR ts).previousHash = zerosStr 64 ∧
      (createGenesisBlock H MR ts).transactions = [] ∧
      (createGenesisBlock H MR ts).difficulty = 1 ∧
      jsStartsWith (createGenesisBlock H MR ts).hash "0" = true) ∧
    (∀ (H : HashInput → String) (MR : List String → String)
      (prevHash : String) (txs : List Transaction) (difficulty ts : Nat),
      (mkBlock H MR 0 prevHash txs difficulty ts).hash = zeroOneHash) := by
  constructor
  · intro H MR ts
    refine ⟨rfl, rfl, rfl, rfl, ?_⟩
    have h : (createGenesisBlock H MR ts).hash = zeroOneHash := rfl
    rw [h]
    decide
  · intro H MR prevHash txs difficulty ts
    rfl

/-- C10: serializing a `Transaction` with `toJSON` and deserializing
with `fromJSON` reproduces every field (id, fromAddress, toAddress,
amount, timestamp, type, signature), and likewise a `Block` round trip
reproduces index, timestamp, previousHash, hash, nonce, difficulty,
merkleRoot, and all contained transactions. -/
theorem serialization_round_trip :
    (∀ (freshId : String) (now : Nat) (t : Transaction),
      Transaction.fromJSON freshId now (Transaction.toJSON t) = t) ∧
    (∀ (H : HashInput → String) (MR : List String → String)
      (nowB : Nat) (txFresh : String) (txNow : Nat) (b : Block),
      Block.fromJSON H MR nowB txFresh txNow (Block.toJSON b) = b) := by
  constructor
  · exact transaction_fromJSON_toJSON
  · intro H MR nowB txFresh txNow b
    cases b with
    | mk index timestamp previousHash transactions difficulty nonce merkleRoot hash =>
      simp only [Block.fromJSON, Block.toJSON, mkBlock,
        transactions_fromJSON_toJSON]

/-- C1 (code bug): on search exhaustion `Block.mineBlock` fabricates the
hash `'0' + '1'.repeat(63)`, which does NOT carry the required number of
leading zeros for difficulty 2: a non-genesis block mined at difficulty
2 under a hash capability that never yields a leading zero ends with a
hash whose first two characters are `"01"`, not `"00"`. -/
theorem mineBlock_fabricates_nonconforming_hash :
    (mineBlock Hf (mkBlock Hf MR0 1 (zerosStr 64) [] 2 5)).hash = zeroOneHash ∧
    (mineBlock Hf (mkBlock Hf MR0 1 (zerosStr 64) [] 2 5)).hash.take
        (mkBlock Hf MR0 1 (zerosStr 64) [] 2 5).difficulty ≠
      zerosStr (mkBlock Hf MR0 1 (zerosStr 64) [] 2 5).difficulty := by
  have hAll : ∀ n,
      (Hf (headerOf (mkBlock Hf MR0 1 (zerosStr 64) [] 2 5) n)).take
        (mkBlock Hf MR0 1 (zerosStr 64) [] 2 5).difficulty ≠
        zerosStr (mkBlock Hf MR0 1 (zerosStr 64) [] 2 5).difficulty := by
    intro n
    show (String.mk (List.replicate 64 'f')).take 2 ≠ zerosStr 2
    decide
  have h := mineBlock_exhaust Hf (mkBlock Hf MR0 1 (zerosStr 64) [] 2 5)
    (by decide) hAll (by decide)
  refine ⟨h, ?_⟩
  rw [h]
  decide

/-- C2 (code bug): a fully valid two-block chain stays valid under
`Blockchain.isChainValid` after a confirmed transaction's `amount` is
mutated in place (50 → 100) with nothing recomputed: the merkle root
commits only to transaction ids and `isChainValid` never recomputes it,
so the tampering is invisible to full-chain validation. -/
theorem isChainValid_misses_amount_tamper :
    isChainValid H0 [gB, b1] = true ∧
    b1Tampered.transactions ≠ b1.transactions ∧
    b1Tampered.hash = b1.hash ∧
    b1Tampered.merkleRoot = b1.merkleRoot ∧
    isChainValid H0 [gB, b1Tampered] = true := by
  refine ⟨by decide, by decide, rfl, rfl, by decide⟩

/-- C3: `replaceChain` accepts exactly when the candidate is strictly
longer and passes `isValidChain`; on rejection it returns `false` with
the whole state untouched; on acceptance only the chain is swapped — the
difficulty, the mempool, and the mining reward are left as they were. -/
theorem replaceChain_spec (s : Blockchain) (c : List Block) :
    ((replaceChain s c).1 = true ↔
      (s.chain.length < c.length ∧ isValidChain c = true)) ∧
    ((replaceChain s c).1 = false → (replaceChain s c).2 = s) ∧
    ((replaceChain s c).1 = true → (replaceChain s c).2.chain = c ∧
      (replaceChain s c).2.difficulty = s.difficulty ∧
      (replaceChain s c).2.pendingTransactions = s.pendingTransactions ∧
      (replaceChain s c).2.miningReward = s.miningReward) := by
  unfold replaceChain
  split_ifs with h1 h2 <;> refine ⟨?_, ?_, ?_⟩ <;> simp_all

/-- Witness for C3: a concrete longer valid candidate is accepted and
the mempool is untouched. -/
theorem replaceChain_spec_witness :
    (replaceChain freshChain [gB, b1]).1 = true ∧
    (replaceChain freshChain [gB, b1]).2.pendingTransactions =
      freshChain.pendingTransactions := by
  have h := replaceChain_spec freshChain [gB, b1]
  have ht : (replaceChain freshChain [gB, b1]).1 = true := h.1.mpr (by decide)
  exact ⟨ht, (h.2.2 ht).2.2.1⟩

/-- C6: `addTransaction` errors exactly under the spec's rejection
condition (absent recipient, non-positive amount, or — for non-reward
kinds — absent sender or insufficient replayed balance); otherwise the
transaction is appended at the end of the mempool and nothing else in
the state changes. -/
theorem addTransaction_spec (s : Blockchain) (tx : Transaction) :
    ((∃ e, addTransaction s tx = Except.error e) ↔ submitRejected s tx) ∧
    (¬ submitRejected s tx →
      addTransaction s tx =
        Except.ok ({ s with pendingTransactions := s.pendingTransactions ++ [tx] },
          latestIndexPlusOne s)) := by
  unfold addTransaction submitRejected
  cases hb : jsFalsy tx.fromAddress <;>
    split_ifs with h1 h2 h3 h4 <;> constructor <;> simp_all

/-- Witness for C6: a concrete valid transfer is appended to the end of
the mempool. -/
theorem addTransaction_spec_witness :
    addTransaction chainA txT =
      Except.ok ({ chainA with
        pendingTransactions := chainA.pendingTransactions ++ [txT] },
        latestIndexPlusOne chainA) :=
  (addTransaction_spec chainA txT).2 (by decide)

/-- C5 counterexample: an unsigned transfer (`signature = null`, kind
`regular`) is ADMITTED by `addTransaction` — the sender has balance 50
on chain, the amount is 30, and no signature check ever runs — refuting
the claim that a missing signature causes rejection at admission. -/
theorem addTransaction_admits_unsigned_transfer :
    txT.signature = none ∧ txT.type = "regular" ∧
    addTransaction chainA txT =
      Except.ok ({ chainA with pendingTransactions := [txT] }, 2) := by
  refine ⟨rfl, rfl, by decide⟩

/-- C5 (amended): `addTransaction` never consults the signature: any
non-reward transaction with recipient present, positive amount, a
present sender and sufficient balance is admitted to the mempool even
when its signature is absent. -/
theorem addTransaction_no_signature_check (s : Blockchain) (tx : Transaction)
    (hsig : tx.signature = none) (hty : tx.type ≠ "reward")
    (hfrom : jsFalsy tx.fromAddress = false) (hto : tx.toAddress ≠ "")
    (hamt : 0 < tx.amount)
    (hbal : ¬ getBalanceOfAddress s (addrVal tx.fromAddress) < tx.amount) :
    addTransaction s tx =
      Except.ok ({ s with pendingTransactions := s.pendingTransactions ++ [tx] },
        latestIndexPlusOne s) := by
  unfold addTransaction
  split_ifs with h1 h2 h3 h4 <;> try simp_all
  all_goals omega

/-- Witness for C5's amended theorem at a concrete unsigned transfer. -/
theorem addTransaction_no_signature_check_witness :
    addTransaction chainA txT =
      Except.ok ({ chainA with
        pendingTransactions := chainA.pendingTransactions ++ [txT] },
        latestIndexPlusOne chainA) :=
  addTransaction_no_signature_check chainA txT rfl (by decide) (by decide)
    (by decide) (by decide) (by decide)

/-- C4 counterexample: a peer transaction failing every admission check
(empty recipient, negative amount, absent sender on a transfer kind)
with a fresh id is pushed straight into the mempool and re-broadcast by
`handleNewTransaction`, while the local submission path
(`addTransaction`) rejects the very same transaction — so peers are NOT
fed through the identical validation path. -/
theorem handleNewTransaction_admits_invalid :
    handleNewTransaction freshChain txBadJ "f" 0 =
      ({ freshChain with pendingTransactions := [txBad] }, true) ∧
    (∃ e, addTransaction freshChain txBad = Except.error e) := by
  exact ⟨by decide, ⟨"sender required unless reward", by decide⟩⟩

/-- C4 (amended): on `NewTransaction` from a peer, dedup by id holds —
an already-pending id is neither added again nor re-broadcast — but a
non-duplicate is appended to the mempool and re-broadcast WITHOUT any
validation (the handler never calls `addTransaction`). -/
theorem handleNewTransaction_spec (s : Blockchain) (d : TxJSON)
    (freshId : String) (now : Nat) :
    (s.pendingTransactions.any (fun t => t.id == d.id) = true →
      handleNewTransaction s d freshId now = (s, false)) ∧
    (s.pendingTransactions.any (fun t => t.id == d.id) = false →
      handleNewTransaction s d freshId now =
        ({ s with pendingTransactions :=
            s.pendingTransactions ++ [Transaction.fromJSON freshId now d] }, true)) := by
  constructor <;> intro h <;>
    simp_all [handleNewTransaction, Transaction.fromJSON, mkTransaction]

/-- Witness for C4's amended theorem: a fresh-id peer transaction lands
at the end of the mempool and is re-broadcast. -/
theorem handleNewTransaction_spec_witness :
    handleNewTransaction freshChain (Transaction.toJSON txT) "f" 0 =
      ({ freshChain with pendingTransactions :=
          freshChain.pendingTransactions ++
            [Transaction.fromJSON "f" 0 (Transaction.toJSON txT)] }, true) :=
  (handleNewTransaction_spec freshChain (Transaction.toJSON txT) "f" 0).2 (by decide)

/-- The inner transaction fold of `getBalanceOfAddress`, in closed
form. -/
theorem balance_txs_foldl (address : String) (l : List Transaction) (acc : Int) :
    l.foldl
      (fun b t =>
        let b1 := if t.toAddress == address then b + t.amount else b
        if t.fromAddress == some address then b1 - t.amount else b1)
      acc = acc + (l.map (txDelta address)).sum := by
  induction l generalizing acc with
  | nil => simp
  | cons hd tl ih =>
    rw [List.foldl_cons, ih, List.map_cons, List.sum_cons]
    unfold txDelta
    dsimp only
    split_ifs <;> ring

/-- The outer block fold of `getBalanceOfAddress`, in closed form. -/
theorem balance_chain_foldl (address : String) (l : List Block) (acc : Int) :
    l.foldl
      (fun bal block =>
        block.transactions.foldl
          (fun b t =>
            let b1 := if t.toAddress == address then b + t.amount else b
            if t.fromAddress == some address then b1 - t.amount else b1)
          bal)
      acc =
      acc + (l.map (fun b => (b.transactions.map (txDelta address)).sum)).sum := by
  induction l generalizing acc with
  | nil => simp
  | cons hd tl ih =>
    rw [List.foldl_cons, ih, balance_txs_foldl, List.map_cons, List.sum_cons]
    ring

/-- C7: the computed balance of an address is the sum over all confirmed
transactions of (+amount as recipient, -amount as sender); the mempool
never enters the computation; and on the concrete sample ledger a
confirmed reward of 50 to `A` yields balance 50 for `A`, and a further
confirmed transfer of 30 from `A` to `B` yields 20 for `A` and 30 for
`B`. -/
theorem getBalanceOfAddress_spec :
    (∀ (s : Blockchain) (address : String),
      getBalanceOfAddress s address =
        (s.chain.map (fun b => (b.transactions.map (txDelta address)).sum)).sum) ∧
    (∀ (s : Blockchain) (p : List Transaction) (address : String),
      getBalanceOfAddress { s with pendingTransactions := p } address =
        getBalanceOfAddress s address) ∧
    (getBalanceOfAddress chainA "A" = 50 ∧
      getBalanceOfAddress chainAB "A" = 20 ∧
      getBalanceOfAddress chainAB "B" = 30) := by
  refine ⟨?_, ?_, by decide, by decide, by decide⟩
  · intro s address
    unfold getBalanceOfAddress
    rw [balance_chain_foldl]
    ring
  · intro s p address
    rfl

/-- C8: `minePendingTransactions` appends exactly one block, indexed one
past the tip, linked to the tip's hash, containing the pending pool
followed by a single reward transaction to the miner of `miningReward`
with kind reward; the mempool is empty afterwards; linkage is preserved,
linkage gives `chain[i+1].previousHash = chain[i].hash` positionally,
and a fresh chain is linked. -/
theorem minePendingTransactions_spec :
    (∀ (H : HashInput → String) (MR : List String → String) (s : Blockchain)
      (miner rid : String) (rts ts : Nat) (tip : Block),
      s.chain.getLast? = some tip →
      ∃ sNew b, minePendingTransactions H MR s miner rid rts ts = some (sNew, b) ∧
        b.index = tip.index + 1 ∧
        b.previousHash = tip.hash ∧
        b.transactions = s.pendingTransactions ++
          [mkTransaction rid none miner s.miningReward rts "reward"] ∧
        sNew.chain = s.chain ++ [b] ∧
        sNew.pendingTransactions = [] ∧
        sNew.difficulty = s.difficulty ∧
        (chainLinked s.chain = true → chainLinked sNew.chain = true)) ∧
    (∀ l, chainLinked l = true → ∀ i b1 b2, l.get? i = some b1 →
      l.get? (i + 1) = some b2 → b2.previousHash = b1.hash) ∧
    (∀ (H : HashInput → String) (MR : List String → String) (ts difficulty : Nat)
      (miningReward : Int),
      chainLinked (mkBlockchain H MR ts difficulty miningReward).chain = true) := by
  refine ⟨?_, chainLinked_get?, fun H MR ts difficulty miningReward => rfl⟩
  intro H MR s miner rid rts ts tip htip
  unfold minePendingTransactions
  rw [htip]
  obtain ⟨hi, hp, ht, _, _, _⟩ := mineBlock_preserves H
    (mkBlock H MR (tip.index + 1) tip.hash
      (s.pendingTransactions ++ [mkTransaction rid none miner s.miningReward rts "reward"])
      s.difficulty ts)
  refine ⟨_, _, rfl, ?_, ?_, ?_, rfl, rfl, rfl, ?_⟩
  · exact hi.trans rfl
  · exact hp.trans rfl
  · exact ht.trans rfl
  · intro hl
    exact chainLinked_append s.chain tip _ htip hl (hp.trans rfl)

/-- Witness for C8: mining on a fresh chain with `H0` appends one block
carrying only the reward transaction and empties the mempool. -/
theorem minePendingTransactions_spec_witness :
    ∃ sNew b, minePendingTransactions H0 MR0 freshChain "M" "r9" 7 8 = some (sNew, b) ∧
      b.index = gB.index + 1 ∧
      b.previousHash = gB.hash ∧
      b.transactions = freshChain.pendingTransactions ++
        [mkTransaction "r9" none "M" freshChain.miningReward 7 "reward"] ∧
      sNew.chain = freshChain.chain ++ [b] ∧
      sNew.pendingTransactions = [] ∧
      sNew.difficulty = freshChain.difficulty ∧
      (chainLinked freshChain.chain = true → chainLinked sNew.chain = true) :=
  minePendingTransactions_spec.1 H0 MR0 freshChain "M" "r9" 7 8 gB (by decide)
